import Mathlib

/-!
Shallow embedding of the LinkNode core of the earendil repository
(packet peel-and-forward, topology gossip, relay-graph snapshotting),
with theorems settling the behavioural claims about it.

Conventions of the embedding:
* Opaque byte blobs (raw packets, bodies, keys, signatures) are `Nat`.
* `blake3` is modelled as an injective digest (the identity on `Nat`);
  two packets have the same hash exactly when they are the same bytes.
* Fallible Rust functions return an outcome record carrying the new state,
  the list of emitted side effects, and an optional error.
* Concurrent maps (spiders, neighbor tables) are modelled by their key lists
  in iteration order; a `send` on a key succeeds exactly when the key is
  present, mirroring `Spider::send` failing without subscribers.
-/

namespace Earendil

/-- Raw onion packet bytes (`RawPacket`), modelled as an opaque number. -/
abbrev Packet := Nat

/-- Raw reply body bytes (`RawBody`). -/
abbrev RawBody := Nat

/-- A blake3 digest value. -/
abbrev HashVal := Nat

/-- `blake3::hash(bytes_of(pkt))`: modelled as an injective digest of the
packet bytes, so equal hashes coincide with equal packets. -/
def blake3 (p : Packet) : HashVal := p

/-- `PeeledPacket` from `earendil_packet`: the result of peeling one onion
layer (src/src/network.rs and src/src/daemon/peel_forward.rs both match on
these three variants). The inner packet of `received` is kept opaque. -/
inductive PeeledPacket
  | relay (nextPeeler : Nat) (pkt : Packet) (delayMs : Nat)
  | received (src : Nat) (inner : Nat)
  | garbledReply (rbId : Nat) (pkt : RawBody) (clientId : Nat)
deriving DecidableEq

/-- `IdentityDescriptor` from `earendil_topology`:
identity public key, onion public key, signature. -/
structure IdentityDescriptor where
  identityPk : Nat
  onionPk : Nat
  signature : Nat
deriving DecidableEq

/-- `AdjacencyDescriptor` from `earendil_topology`:
a timestamped, mutually signed edge `left — right`. -/
structure AdjacencyDescriptor where
  left : Nat
  right : Nat
  leftSig : Nat
  rightSig : Nat
  unixTimestamp : Nat
deriving DecidableEq

/-- Modelled from the spec: `RelayGraph` of `earendil_topology` (the crate is
not under src/): a mapping from fingerprint to `IdentityDescriptor` plus a set
of `AdjacencyDescriptor`s. -/
structure RelayGraph where
  identities : List (Nat × IdentityDescriptor)
  adjacencies : List AdjacencyDescriptor
deriving DecidableEq

/-- `RelayGraph::new()`: the empty graph. -/
def RelayGraph.new : RelayGraph := ⟨[], []⟩

/-- `RelayGraph::identity(fp)`: look up the identity descriptor stored under a
fingerprint. -/
def RelayGraph.identity (g : RelayGraph) (fp : Nat) : Option IdentityDescriptor :=
  (g.identities.find? (fun p => p.1 = fp)).map Prod.snd

/-- The undirected neighbors of `u` induced by the adjacency set. -/
def RelayGraph.neighborsOf (g : RelayGraph) (u : Nat) : List Nat :=
  g.adjacencies.foldr
    (fun a acc =>
      if a.left = u then a.right :: acc
      else if a.right = u then a.left :: acc
      else acc) []

/-- One breadth-first level: extend every frontier path by every unvisited
neighbor of its head. Paths are stored reversed (head = current node). -/
def bfsExpand (g : RelayGraph) (visited : List Nat) (frontier : List (List Nat)) :
    List (List Nat) :=
  frontier.foldr
    (fun p acc =>
      match p with
      | [] => acc
      | u :: _ =>
          (((g.neighborsOf u).filter (fun v => decide (v ∉ visited))).map
            (fun v => v :: p)) ++ acc) []

/-- Fuel-bounded breadth-first search returning a shortest path (as a node
list from source to destination, both included). -/
def bfsLoop (g : RelayGraph) (dst : Nat) :
    Nat → List Nat → List (List Nat) → Option (List Nat)
  | 0, _, _ => none
  | _ + 1, _, [] => none
  | fuel + 1, visited, frontier =>
      match frontier.find? (fun p => p.head? = some dst) with
      | some p => some p.reverse
      | none =>
          let expanded := bfsExpand g visited frontier
          bfsLoop g dst fuel (expanded.filterMap List.head? ++ visited) expanded

/-- Modelled from the spec: `RelayGraph::find_shortest_path(src, dst)` of
`earendil_topology` (not under src/): a breadth-first shortest path in the
adjacency graph, `none` when `dst` is unreachable from `src`. The fuel bound
exceeds the number of nodes touching any adjacency, so it never runs out. -/
def RelayGraph.find_shortest_path (g : RelayGraph) (src dst : Nat) : Option (List Nat) :=
  bfsLoop g dst (2 * g.adjacencies.length + 2) [src] [[src]]

/-! ### The peel-forward engine of src/src/network.rs -/

/-- The ambient context of src/src/network.rs: whether we are a client,
our relay fingerprint (`MY_RELAY_IDENTITY`), the onion decryption
`RawPacket::peel` with our onion secret (`none` = decryption failure), the
relay graph, and the key sets of the two spiders (`RELAY_SPIDER.keys()` /
`CLIENT_SPIDER` subscriber ids) in iteration order. -/
structure NetEnv where
  isClient : Bool
  myFp : Nat
  peel : Packet → Option PeeledPacket
  graph : RelayGraph
  relayNeighbors : List Nat
  clientNeighbors : List Nat

/-- The mutable state touched by `incoming_raw`: the `PKTS_SEEN` replay set
(a `DashSet<blake3::Hash>` in src/src/network.rs, unbounded). -/
structure NetState where
  pktsSeen : List HashVal
deriving DecidableEq

/-- The externally visible side effects of the src/src/network.rs engine:
a `RELAY_SPIDER.send` to a neighbor, a delayed re-entry of a peeled child
packet (the spawned timer task), an `n2r::incoming_forward` delivery, and a
`CLIENT_SPIDER.send` toward a neighboring client. -/
inductive NetEffect
  | relaySend (nextHop : Nat) (pkt : Packet) (nextPeeler : Nat)
  | scheduleDelayed (pkt : Packet) (nextPeeler : Nat) (delayMs : Nat)
  | deliverForward (src : Nat) (inner : Nat)
  | clientSend (clientId : Nat) (body : RawBody) (rbId : Nat)
deriving DecidableEq

/-- The `anyhow::bail!` sites of src/src/network.rs. -/
inductive NetErr
  | replay | peelFailed | noRoute | spiderSendFailed | clientSendFailed
deriving DecidableEq

/-- Result of one `incoming_raw`/`send_raw` call: the new state, the effects
emitted during the call, and the error if the call bailed. -/
structure RawOutcome where
  state : NetState
  effects : List NetEffect
  err : Option NetErr
deriving DecidableEq

/-- The loop body of `one_hop_closer` (src/src/network.rs lines 157-167 and
src/src/daemon/peel_forward.rs lines 143-157): keep the neighbor with the
strictly shortest route found so far, as a `(best length, best hop)` pair. -/
def ohcStep (g : RelayGraph) (dest : Nat) (acc : Option (Nat × Nat)) (neigh : Nat) :
    Option (Nat × Nat) :=
  match g.find_shortest_path neigh dest with
  | some route =>
      match acc with
      | none => some (route.length, neigh)
      | some (bl, bh) =>
          if route.length < bl then some (route.length, neigh) else some (bl, bh)
  | none => acc

/-- `one_hop_closer(ctx, dest)` of src/src/network.rs (lines 150-171), also
`client_one_hop_closer` of src/src/daemon/peel_forward.rs (lines 133-160):
scan the currently connected relay neighbors in iteration order and pick the
one with the strictly shortest `find_shortest_path` to `dest`; `none` when
there is no neighbor with a route (the source bails on an empty neighbor
list, which is the same case). -/
def one_hop_closer (env : NetEnv) (dest : Nat) : Option Nat :=
  (env.relayNeighbors.foldl (ohcStep env.graph dest) none).map Prod.snd

/-- `incoming_raw(ctx, next_peeler, pkt)` of src/src/network.rs (lines
59-148): replay check and insertion first; then, if we are the designated
peeler, peel and dispatch by variant (delayed re-emission for `Relay`,
`n2r::incoming_forward` for `Received`, `CLIENT_SPIDER.send(client_id)` for
`GarbledReply` — with no special case for `client_id == 0`); otherwise
forward one hop closer via the relay spider. -/
def incoming_raw (env : NetEnv) (st : NetState) (nextPeeler : Nat) (pkt : Packet) :
    RawOutcome :=
  let h := blake3 pkt
  if h ∈ st.pktsSeen then ⟨st, [], some .replay⟩
  else
    let st1 : NetState := ⟨h :: st.pktsSeen⟩
    if nextPeeler = env.myFp then
      match env.peel pkt with
      | none => ⟨st1, [], some .peelFailed⟩
      | some (.relay np pkt2 delayMs) => ⟨st1, [.scheduleDelayed pkt2 np delayMs], none⟩
      | some (.received src inner) => ⟨st1, [.deliverForward src inner], none⟩
      | some (.garbledReply rbId body clientId) =>
          if clientId ∈ env.clientNeighbors then
            ⟨st1, [.clientSend clientId body rbId], none⟩
          else ⟨st1, [], some .clientSendFailed⟩
    else
      match one_hop_closer env nextPeeler with
      | none => ⟨st1, [], some .noRoute⟩
      | some nextHop =>
          if nextHop ∈ env.relayNeighbors then
            ⟨st1, [.relaySend nextHop pkt nextPeeler], none⟩
          else ⟨st1, [], some .spiderSendFailed⟩

/-- `send_raw(ctx, packet, next_peeler)` of src/src/network.rs (lines 20-55):
clients always route one hop closer; a relay whose own fingerprint is the
next peeler feeds the packet straight into `incoming_raw`, and otherwise
routes one hop closer through the relay spider. -/
def send_raw (env : NetEnv) (st : NetState) (pkt : Packet) (nextPeeler : Nat) :
    RawOutcome :=
  if env.isClient then
    match one_hop_closer env nextPeeler with
    | none => ⟨st, [], some .noRoute⟩
    | some nextHop =>
        if nextHop ∈ env.relayNeighbors then
          ⟨st, [.relaySend nextHop pkt nextPeeler], none⟩
        else ⟨st, [], some .spiderSendFailed⟩
  else
    if nextPeeler = env.myFp then incoming_raw env st nextPeeler pkt
    else
      match one_hop_closer env nextPeeler with
      | none => ⟨st, [], some .noRoute⟩
      | some nextHop =>
          if nextHop ∈ env.relayNeighbors then
            ⟨st, [.relaySend nextHop pkt nextPeeler], none⟩
          else ⟨st, [], some .spiderSendFailed⟩

/-! ### The peel-forward engine of src/src/daemon/peel_forward.rs -/

/-- `NodeId` from `earendil_crypt`: the sending neighbor is a relay
(fingerprint) or a client (numeric id). -/
inductive NodeId
  | relay (fp : Nat)
  | client (id : Nat)
deriving DecidableEq

/-- Modelled from the spec: the `DEBTS` ledger (src/src/context.rs is not
under src/). Per spec section 4.7 a debt is the sum of logged deltas per
neighbor; inbound packets append a one-unit delta. -/
structure Debts where
  relayLog : List (Nat × Int)
  clientLog : List (Nat × Int)
deriving DecidableEq

/-- Modelled from the spec: `get_debt` for a relay neighbor = sum of its
logged deltas. -/
def Debts.relayDebt (d : Debts) (fp : Nat) : Int :=
  ((d.relayLog.filter (fun p => p.1 = fp)).map Prod.snd).sum

/-- Modelled from the spec: `get_debt` for a client neighbor. -/
def Debts.clientDebt (d : Debts) (id : Nat) : Int :=
  ((d.clientLog.filter (fun p => p.1 = id)).map Prod.snd).sum

/-- Modelled from the spec: `incr_relay_incoming` appends a one-unit delta
against the relay neighbor. -/
def Debts.incrRelayIncoming (d : Debts) (fp : Nat) : Debts :=
  { d with relayLog := (fp, 1) :: d.relayLog }

/-- Modelled from the spec: `incr_client_incoming` appends a one-unit delta
against the client neighbor. -/
def Debts.incrClientIncoming (d : Debts) (id : Nat) : Debts :=
  { d with clientLog := (id, 1) :: d.clientLog }

/-- Per-neighbor configured debt cap with a default. -/
def capFor (caps : List (Nat × Int)) (dflt : Int) (k : Nat) : Int :=
  ((caps.find? (fun p => p.1 = k)).map Prod.snd).getD dflt

/-- The ambient context of src/src/daemon/peel_forward.rs: our fingerprint
(`GLOBAL_IDENTITY`), the peel function (`GLOBAL_ONION_SK`), the relay graph,
the key sets of `NEIGH_TABLE_NEW` and `CLIENT_TABLE`, and the configured
per-neighbor debt caps. -/
structure PFEnv where
  myFp : Nat
  peel : Packet → Option PeeledPacket
  graph : RelayGraph
  neighTable : List Nat
  clientTable : List Nat
  relayCaps : List (Nat × Int)
  clientCaps : List (Nat × Int)
  defaultCap : Int

/-- Modelled from the spec: `DEBTS.relay_is_within_debt_limit(fp)` — the
neighbor's debt does not exceed its configured cap. -/
def relayWithinDebtLimit (env : PFEnv) (d : Debts) (fp : Nat) : Bool :=
  d.relayDebt fp ≤ capFor env.relayCaps env.defaultCap fp

/-- Modelled from the spec: `DEBTS.client_is_within_debt_limit(id)`. -/
def clientWithinDebtLimit (env : PFEnv) (d : Debts) (id : Nat) : Bool :=
  d.clientDebt id ≤ capFor env.clientCaps env.defaultCap id

/-- The mutable state touched by `peel_forward`: the `PKTS_SEEN` replay set
and the `DEBTS` ledger. -/
structure PFState where
  pktsSeen : List HashVal
  debts : Debts
deriving DecidableEq

/-- The side effects of src/src/daemon/peel_forward.rs: a `try_send` into a
neighbor connection, a `DELAY_QUEUE.insert`, a `relay_process_inner_pkt`
delivery, and a `CLIENT_TABLE` send toward a client link. -/
inductive PFEffect
  | trySendNext (nextHop : Nat) (pkt : Packet) (nextPeeler : Nat)
  | delayQueuePush (pkt : Packet) (nextPeeler : Nat) (delayMs : Nat)
  | deliverInner (src : Nat) (inner : Nat)
  | clientSend (clientId : Nat) (body : RawBody) (rbId : Nat)
deriving DecidableEq

/-- The `anyhow::bail!`/`?` sites of `peel_forward` (the function itself only
logs the error). -/
inductive PFErr
  | replay | debtExceeded | peelFailed | noNextHopConn
deriving DecidableEq

/-- Result of one `peel_forward` call. -/
structure PFOutcome where
  state : PFState
  effects : List PFEffect
  err : Option PFErr
deriving DecidableEq

/-- `relay_one_hop_closer(ctx, dest_fp)` of src/src/daemon/peel_forward.rs
(lines 162-174): second node on the shortest path from ourselves to the
destination. -/
def relay_one_hop_closer (env : PFEnv) (dest : Nat) : Option Nat :=
  (env.graph.find_shortest_path env.myFp dest).bind (fun route => route.get? 1)

/-- The peel-or-forward phase of `peel_forward` (src/src/daemon/peel_forward.rs
lines 68-125), entered only after the replay and debt gates have passed.
`GarbledReply` is looked up in `CLIENT_TABLE` by `client_id` with no special
case for `client_id == 0`; an absent client is a logged warning and `Ok(())`.
A missing route when we are not the peeler is likewise a logged warning. -/
def peelPhase (env : PFEnv) (st : PFState) (nextPeeler : Nat) (pkt : Packet) :
    PFOutcome :=
  if nextPeeler = env.myFp then
    match env.peel pkt with
    | none => ⟨st, [], some .peelFailed⟩
    | some (.relay np pkt2 delayMs) => ⟨st, [.delayQueuePush pkt2 np delayMs], none⟩
    | some (.received src inner) => ⟨st, [.deliverInner src inner], none⟩
    | some (.garbledReply rbId body clientId) =>
        if clientId ∈ env.clientTable then
          ⟨st, [.clientSend clientId body rbId], none⟩
        else ⟨st, [], none⟩
  else
    match relay_one_hop_closer env nextPeeler with
    | some nextHop =>
        if nextHop ∈ env.neighTable then
          ⟨st, [.trySendNext nextHop pkt nextPeeler], none⟩
        else ⟨st, [], some .noNextHopConn⟩
    | none => ⟨st, [], none⟩

/-- `peel_forward(ctx, last_hop, next_peeler, pkt)` of
src/src/daemon/peel_forward.rs (lines 19-131). In source order: the replay
check and `PKTS_SEEN` insertion come first; then the sender's debt cap is
checked (bailing after the hash is already inserted) and the inbound debt is
incremented (skipped for a relay sender equal to ourselves); then the
peel-or-forward phase runs. -/
def peel_forward (env : PFEnv) (st : PFState) (lastHop : NodeId) (nextPeeler : Nat)
    (pkt : Packet) : PFOutcome :=
  let h := blake3 pkt
  if h ∈ st.pktsSeen then ⟨st, [], some .replay⟩
  else
    let st1 : PFState := { st with pktsSeen := h :: st.pktsSeen }
    match lastHop with
    | .relay fp =>
        if relayWithinDebtLimit env st1.debts fp then
          let st2 :=
            if fp ≠ env.myFp then { st1 with debts := st1.debts.incrRelayIncoming fp }
            else st1
          peelPhase env st2 nextPeeler pkt
        else ⟨st1, [], some .debtExceeded⟩
    | .client cid =>
        if clientWithinDebtLimit env st1.debts cid then
          peelPhase env { st1 with debts := st1.debts.incrClientIncoming cid } nextPeeler pkt
        else ⟨st1, [], some .debtExceeded⟩

/-! ### Identity crypto model and adjacency signing
(src/src/daemon/inout_route/link_protocol_impl.rs, gossip.rs) -/

/-- The fingerprint of the public key of a relay secret key. In the model a
secret key is identified with its fingerprint. -/
def fingerprintOf (sk : Nat) : Nat := sk

/-- `sk.sign(msg)`: a signature, modelled as the pair of the signer's
fingerprint and the message so that verification is exact. -/
def signMsg (sk msg : Nat) : Nat := Nat.pair (fingerprintOf sk) msg

/-- Verify a signature by the relay with fingerprint `fp` over `msg`. -/
def verifySig (fp sig msg : Nat) : Bool := sig = Nat.pair fp msg

/-- `AdjacencyDescriptor::to_sign()`: the canonical encoding of the
descriptor excluding the signature fields. -/
def AdjacencyDescriptor.toSign (d : AdjacencyDescriptor) : Nat :=
  Nat.pair d.left (Nat.pair d.right d.unixTimestamp)

/-- Failure cases of `RelayGraph::insert_adjacency`. -/
inductive TopologyErr
  | badOrdering | badSignature | missingIdentity
deriving DecidableEq

/-- Replace any adjacency with the same `(left, right)` endpoints. -/
def upsertAdjacency (l : List AdjacencyDescriptor) (d : AdjacencyDescriptor) :
    List AdjacencyDescriptor :=
  d :: l.filter (fun a => !(a.left = d.left && a.right = d.right))

/-- Modelled from the spec: `RelayGraph::insert_adjacency` of
`earendil_topology` (not under src/): fails on bad ordering
(`left < right` required), bad signatures over the canonical encoding, or a
referenced identity missing from the graph; otherwise stores the adjacency,
the new descriptor superseding any previous one for the same edge. -/
def RelayGraph.insert_adjacency (g : RelayGraph) (d : AdjacencyDescriptor) :
    Except TopologyErr RelayGraph :=
  if d.left < d.right then
    if verifySig d.left d.leftSig d.toSign && verifySig d.right d.rightSig d.toSign then
      if (g.identity d.left).isSome && (g.identity d.right).isSome then
        .ok { g with adjacencies := upsertAdjacency g.adjacencies d }
      else .error .missingIdentity
    else .error .badSignature
  else .error .badOrdering

/-- The server-side context of `LinkProtocolImpl`: our relay secret
(`MY_RELAY_IDENTITY`, present on every listening relay) and the currently
connected relay neighbors (`is_relay_neigh` = `RELAY_SPIDER.contains`). -/
structure ServerEnv where
  mySk : Nat
  relayNeighbors : List Nat

/-- `LinkProtocolImpl::sign_adjacency(left_incomplete)` of
src/src/daemon/inout_route/link_protocol_impl.rs (lines 36-67): accept only
if `left < right`, `right` is our own fingerprint, and `left` is a currently
connected relay neighbor; then fill the right signature and insert into the
relay graph, returning `None` (and leaving the graph as it was) if the
insertion fails. Returns the RPC answer together with the graph after the
call. -/
def server_sign_adjacency (env : ServerEnv) (g : RelayGraph)
    (desc : AdjacencyDescriptor) : Option AdjacencyDescriptor × RelayGraph :=
  let myFp := fingerprintOf env.mySk
  if desc.left < desc.right ∧ desc.right = myFp ∧ desc.left ∈ env.relayNeighbors then
    let signed := { desc with rightSig := signMsg env.mySk desc.toSign }
    match g.insert_adjacency signed with
    | .ok g2 => (some signed, g2)
    | .error _ => (none, g)
  else (none, g)

/-- The client side of adjacency signing, `sign_adjacency` of
src/src/daemon/inout_route/gossip.rs (lines 51-81): only a node holding a
relay identity whose fingerprint is strictly less than the remote's builds a
half-signed descriptor (left = us, right = remote, our signature filled) and
sends it; otherwise no request is sent. Returns the request sent, if any. -/
def gossip_sign_adjacency_request (myIdentity : Option Nat) (remoteFp : Nat)
    (ts : Nat) : Option AdjacencyDescriptor :=
  match myIdentity with
  | none => none
  | some sk =>
      let myFp := fingerprintOf sk
      if myFp < remoteFp then
        let base : AdjacencyDescriptor :=
          { left := myFp, right := remoteFp, leftSig := 0, rightSig := 0,
            unixTimestamp := ts }
        some { base with leftSig := signMsg sk base.toSign }
      else none

/-! ### The stubbed settlement RPCs
(src/src/daemon/inout_route/link_protocol_impl.rs) -/

/-- What a call of an RPC handler does: produce an answer value, or abort the
task by panicking (Rust `todo!()`). -/
inductive RpcOutcome (α : Type)
  | answer (val : α)
  | aborts
deriving DecidableEq

/-- `LinkProtocolImpl::start_settlement(req)` of
src/src/daemon/inout_route/link_protocol_impl.rs (lines 83-114): the body is
`todo!()`, so every call panics; the commented-out implementation below it is
dead code. -/
def start_settlement (_req : Nat) : RpcOutcome (Option Nat) := .aborts

/-- `LinkProtocolImpl::request_seed()` of
src/src/daemon/inout_route/link_protocol_impl.rs (lines 131-149): the body is
`todo!()`, so every call panics. -/
def request_seed : RpcOutcome (Option Nat) := .aborts

/-! ### Route instruction construction (src/src/daemon.rs) -/

/-- `ForwardInstruction` from `earendil_packet`. -/
structure ForwardInstruction where
  thisPubkey : Nat
  nextFingerprint : Nat
deriving DecidableEq

/-- The error type of `route_to_instructs`. -/
inductive SendMessageError
  | noOnionPublic (fp : Nat)
deriving DecidableEq

/-- `route.windows(2)`: the list of consecutive pairs of the route. -/
def windows2 : List Nat → List (Nat × Nat)
  | a :: b :: rest => (a, b) :: windows2 (b :: rest)
  | _ => []

/-- The `map`/`collect::<Result>` over the windows in `route_to_instructs`:
stop at the first window whose first node has no identity in the graph. -/
def collectInstrs (g : RelayGraph) : List (Nat × Nat) →
    Except SendMessageError (List ForwardInstruction)
  | [] => .ok []
  | (a, b) :: rest =>
      match g.identity a with
      | none => .error (.noOnionPublic a)
      | some idDesc =>
          match collectInstrs g rest with
          | .error e => .error e
          | .ok instrs => .ok (⟨idDesc.onionPk, b⟩ :: instrs)

/-- `route_to_instructs(route, relay_graph)` of src/src/daemon.rs (lines
524-544): for each consecutive pair `(a, b)` of the route emit
`ForwardInstruction { this_pubkey = onion_pk(a), next_fingerprint = b }`,
failing with `NoOnionPublic(a)` when `a` has no identity in the graph. -/
def route_to_instructs (g : RelayGraph) (route : List Nat) :
    Except SendMessageError (List ForwardInstruction) :=
  collectInstrs g (windows2 route)

/-! ### The misc store and the relay-graph snapshot (src/src/link_node.rs,
src/src/link_node/link_store.rs) -/

/-- Encode a list of numbers into one number (nil = 0, cons = pair + 1). -/
def encodeList : List Nat → Nat
  | [] => 0
  | x :: xs => Nat.pair x (encodeList xs) + 1

/-- Decode the list encoding. -/
def decodeList : Nat → List Nat
  | 0 => []
  | n + 1 =>
      (Nat.unpair n).1 ::
        decodeList (Nat.unpair n).2
decreasing_by exact Nat.lt_succ_of_le (Nat.unpair_right_le n)

/-- Canonical encoding of an `IdentityDescriptor`. -/
def encodeId (i : IdentityDescriptor) : Nat :=
  Nat.pair i.identityPk (Nat.pair i.onionPk i.signature)

/-- Decode an `IdentityDescriptor`. -/
def decodeId (n : Nat) : IdentityDescriptor :=
  ⟨(Nat.unpair n).1, (Nat.unpair (Nat.unpair n).2).1, (Nat.unpair (Nat.unpair n).2).2⟩

/-- Canonical encoding of an `AdjacencyDescriptor`. -/
def encodeAdj (a : AdjacencyDescriptor) : Nat :=
  Nat.pair a.left (Nat.pair a.right (Nat.pair a.leftSig (Nat.pair a.rightSig a.unixTimestamp)))

/-- Decode an `AdjacencyDescriptor`. -/
def decodeAdj (n : Nat) : AdjacencyDescriptor :=
  ⟨(Nat.unpair n).1,
   (Nat.unpair (Nat.unpair n).2).1,
   (Nat.unpair (Nat.unpair (Nat.unpair n).2).2).1,
   (Nat.unpair (Nat.unpair (Nat.unpair (Nat.unpair n).2).2).2).1,
   (Nat.unpair (Nat.unpair (Nat.unpair (Nat.unpair n).2).2).2).2⟩

/-- Modelled from the spec: `stdcode` canonical serialization of a
`RelayGraph` snapshot (the `stdcode` crate is external): an injective
encoding of the identity table and the adjacency set. -/
def stdcodeGraph (g : RelayGraph) : Nat :=
  Nat.pair
    (encodeList (g.identities.map (fun p => Nat.pair p.1 (encodeId p.2))))
    (encodeList (g.adjacencies.map encodeAdj))

/-- Modelled from the spec: `stdcode::deserialize` of a `RelayGraph`
snapshot; inverse of `stdcodeGraph` on its image. -/
def stdcodeGraphDecode (n : Nat) : Option RelayGraph :=
  some
    ⟨(decodeList (Nat.unpair n).1).map
        (fun m => ((Nat.unpair m).1, decodeId (Nat.unpair m).2)),
     (decodeList (Nat.unpair n).2).map decodeAdj⟩

/-- The `misc` key-value table of the link store
(src/src/link_node/link_store.rs): `key TEXT PRIMARY KEY, value BLOB`. -/
structure MiscStore where
  misc : List (String × Nat)
deriving DecidableEq

/-- `LinkStore::insert_misc(key, value)`
(src/src/link_node/link_store.rs lines 163-170): upsert on the key. -/
def MiscStore.insert_misc (s : MiscStore) (k : String) (v : Nat) : MiscStore :=
  ⟨(k, v) :: s.misc.filter (fun p => !(p.1 = k))⟩

/-- `LinkStore::get_misc(key)`
(src/src/link_node/link_store.rs lines 172-178): lookup. -/
def MiscStore.get_misc (s : MiscStore) (k : String) : Option Nat :=
  (s.misc.find? (fun p => p.1 = k)).map Prod.snd

/-- One iteration of `save_relay_graph_loop` inside `link_node_loop`
(src/src/link_node.rs lines 339-353): serialize the relay graph and store
it via `insert_misc("relay_graph".to_string(), ...)` — note the underscore
in the key written by the source. -/
def save_relay_graph_step (s : MiscStore) (g : RelayGraph) : MiscStore :=
  s.insert_misc "relay_graph" (stdcodeGraph g)

/-- The relay-graph load in `LinkNode::new` (src/src/link_node.rs lines
66-74): read `get_misc("relay-graph")` — note the hyphen in the key read by
the source — deserialize, and fall back to `RelayGraph::new()` when the key
is absent or does not deserialize. -/
def load_relay_graph (s : MiscStore) : RelayGraph :=
  match (s.get_misc "relay-graph").bind stdcodeGraphDecode with
  | some g => g
  | none => RelayGraph.new

/-! ## Supporting lemmas -/

/-- Whether a network effect is a dispatch into the relay spider. -/
def NetEffect.isRelaySend : NetEffect → Bool
  | .relaySend _ _ _ => true
  | _ => false

/-- The sending neighbor of a packet is over its configured debt cap: the
relay (`relay_is_within_debt_limit`, peel_forward.rs lines 41-49) or client
(`client_is_within_debt_limit`, lines 51-58) gate of `peel_forward` fails
for it. -/
def senderOverDebtCap (env : PFEnv) (d : Debts) : NodeId → Bool
  | .relay fp => !(relayWithinDebtLimit env d fp)
  | .client cid => !(clientWithinDebtLimit env d cid)

/-- The peel-or-forward phase of `peel_forward` never touches the state. -/
theorem peelPhase_state (env : PFEnv) (s : PFState) (np : Nat) (pkt : Packet) :
    (peelPhase env s np pkt).state = s := by
  unfold peelPhase
  (repeat' split) <;> rfl

/-- After a fresh hash is inserted, every branch of `incoming_raw` leaves the
replay set at exactly the inserted-hash state. -/
theorem incoming_raw_state_of_not_seen (env : NetEnv) (st : NetState)
    (np : Nat) (pkt : Packet) (h : blake3 pkt ∉ st.pktsSeen) :
    (incoming_raw env st np pkt).state = ⟨blake3 pkt :: st.pktsSeen⟩ := by
  unfold incoming_raw
  rw [if_neg h]
  (repeat' split) <;> rfl

/-- When we are the designated peeler, `incoming_raw` emits no relay-spider
dispatch at all in that call. -/
theorem incoming_raw_self_no_relay_send (env : NetEnv) (st : NetState)
    (pkt : Packet) :
    ∀ e ∈ (incoming_raw env st env.myFp pkt).effects, e.isRelaySend = false := by
  unfold incoming_raw
  by_cases hmem : blake3 pkt ∈ st.pktsSeen
  · rw [if_pos hmem]
    simp
  · rw [if_neg hmem]
    simp only
    rw [if_pos trivial]
    cases hp : env.peel pkt with
    | none => simp [NetEffect.isRelaySend]
    | some pp =>
        cases pp with
        | relay a b c => simp [NetEffect.isRelaySend]
        | received a b => simp [NetEffect.isRelaySend]
        | garbledReply a b c => (repeat' split) <;> simp [NetEffect.isRelaySend]

/-! ## Claim theorems -/

/-- C1: a raw packet whose blake3 hash is already in the replay set is
dropped by both engines with no side effect at all (state unchanged — in
particular no debt change — no peel, no dispatch), while a fresh packet gets
its hash inserted into the replay set. -/
theorem c1_replay_first_no_side_effects
    (env : NetEnv) (st : NetState) (nextPeeler : Nat) (pkt : Packet)
    (penv : PFEnv) (pst : PFState) (lastHop : NodeId) :
    (blake3 pkt ∈ st.pktsSeen →
      incoming_raw env st nextPeeler pkt = ⟨st, [], some .replay⟩) ∧
    (blake3 pkt ∉ st.pktsSeen →
      (incoming_raw env st nextPeeler pkt).state.pktsSeen = blake3 pkt :: st.pktsSeen) ∧
    (blake3 pkt ∈ pst.pktsSeen →
      peel_forward penv pst lastHop nextPeeler pkt = ⟨pst, [], some .replay⟩) ∧
    (blake3 pkt ∉ pst.pktsSeen →
      (peel_forward penv pst lastHop nextPeeler pkt).state.pktsSeen =
        blake3 pkt :: pst.pktsSeen) := by
  refine ⟨?_, ?_, ?_, ?_⟩
  · intro h
    unfold incoming_raw
    rw [if_pos h]
  · intro h
    rw [incoming_raw_state_of_not_seen env st nextPeeler pkt h]
  · intro h
    unfold peel_forward
    rw [if_pos h]
  · intro h
    unfold peel_forward
    rw [if_neg h]
    cases lastHop with
    | relay fp =>
        simp only
        split
        · split <;> rw [peelPhase_state]
        · rfl
    | client cid =>
        simp only
        split
        · rw [peelPhase_state]
        · rfl

/-- Witness for C1 at concrete inputs. -/
theorem c1_replay_first_no_side_effects_witness :
    incoming_raw ⟨false, 9, fun _ => none, RelayGraph.new, [], []⟩ ⟨[7]⟩ 9 7 =
      ⟨⟨[7]⟩, [], some .replay⟩ ∧
    (peel_forward ⟨9, fun _ => none, RelayGraph.new, [], [], [], [], 100⟩
        ⟨[], ⟨[], []⟩⟩ (.relay 3) 9 7).state.pktsSeen = [7] := by
  constructor
  · exact (c1_replay_first_no_side_effects
      ⟨false, 9, fun _ => none, RelayGraph.new, [], []⟩ ⟨[7]⟩ 9 7
      ⟨9, fun _ => none, RelayGraph.new, [], [], [], [], 100⟩ ⟨[], ⟨[], []⟩⟩
      (.relay 3)).1 (by decide)
  · exact (c1_replay_first_no_side_effects
      ⟨false, 9, fun _ => none, RelayGraph.new, [], []⟩ ⟨[7]⟩ 9 7
      ⟨9, fun _ => none, RelayGraph.new, [], [], [], [], 100⟩ ⟨[], ⟨[], []⟩⟩
      (.relay 3)).2.2.2 (by decide)

/-- C9: in `peel_forward` the hash is inserted before the debt gate, so a
packet rejected because its sender — relay or client — is over the debt cap
still leaves its hash behind (debts untouched, no effects), and a
byte-identical retransmission is dropped as a replay by any later
`peel_forward` whose replay set holds the hash — whatever the debts are by
then. -/
theorem c9_debt_reject_keeps_hash
    (env : PFEnv) (st : PFState) (lastHop : NodeId) (nextPeeler : Nat)
    (pkt : Packet)
    (hnew : blake3 pkt ∉ st.pktsSeen)
    (hover : senderOverDebtCap env st.debts lastHop = true) :
    peel_forward env st lastHop nextPeeler pkt =
      ⟨⟨blake3 pkt :: st.pktsSeen, st.debts⟩, [], some .debtExceeded⟩ ∧
    ∀ (env2 : PFEnv) (st2 : PFState) (lastHop2 : NodeId) (nextPeeler2 : Nat),
      blake3 pkt ∈ st2.pktsSeen →
      peel_forward env2 st2 lastHop2 nextPeeler2 pkt = ⟨st2, [], some .replay⟩ := by
  constructor
  · unfold peel_forward
    rw [if_neg hnew]
    cases lastHop with
    | relay fp =>
        have h1 : relayWithinDebtLimit env st.debts fp = false := by
          simpa [senderOverDebtCap] using hover
        simp only [h1, Bool.false_eq_true, if_false]
    | client cid =>
        have h1 : clientWithinDebtLimit env st.debts cid = false := by
          simpa [senderOverDebtCap] using hover
        simp only [h1, Bool.false_eq_true, if_false]
  · intro env2 st2 lastHop2 nextPeeler2 h2
    unfold peel_forward
    rw [if_pos h2]

/-- Witness for C9: a relay sender and a client sender whose debts (1)
exceed their caps (0) are each rejected with the hash retained, and the same
packet replayed against a settled-debt state is still dropped as a replay. -/
theorem c9_debt_reject_keeps_hash_witness :
    peel_forward ⟨9, fun _ => none, RelayGraph.new, [], [], [(3, 0)], [(4, 0)], 0⟩
        ⟨[], ⟨[(3, 1)], [(4, 1)]⟩⟩ (.relay 3) 9 7 =
      ⟨⟨[7], ⟨[(3, 1)], [(4, 1)]⟩⟩, [], some .debtExceeded⟩ ∧
    peel_forward ⟨9, fun _ => none, RelayGraph.new, [], [], [(3, 0)], [(4, 0)], 0⟩
        ⟨[], ⟨[(3, 1)], [(4, 1)]⟩⟩ (.client 4) 9 7 =
      ⟨⟨[7], ⟨[(3, 1)], [(4, 1)]⟩⟩, [], some .debtExceeded⟩ ∧
    peel_forward ⟨9, fun _ => none, RelayGraph.new, [], [], [(3, 0)], [(4, 0)], 0⟩
        ⟨[7], ⟨[], []⟩⟩ (.client 4) 9 7 = ⟨⟨[7], ⟨[], []⟩⟩, [], some .replay⟩ := by
  refine ⟨?_, ?_, ?_⟩
  · exact (c9_debt_reject_keeps_hash
      ⟨9, fun _ => none, RelayGraph.new, [], [], [(3, 0)], [(4, 0)], 0⟩
      ⟨[], ⟨[(3, 1)], [(4, 1)]⟩⟩ (.relay 3) 9 7 (by decide) (by decide)).1
  · exact (c9_debt_reject_keeps_hash
      ⟨9, fun _ => none, RelayGraph.new, [], [], [(3, 0)], [(4, 0)], 0⟩
      ⟨[], ⟨[(3, 1)], [(4, 1)]⟩⟩ (.client 4) 9 7 (by decide) (by decide)).1
  · exact (c9_debt_reject_keeps_hash
      ⟨9, fun _ => none, RelayGraph.new, [], [], [(3, 0)], [(4, 0)], 0⟩
      ⟨[], ⟨[(3, 1)], [(4, 1)]⟩⟩ (.relay 3) 9 7 (by decide) (by decide)).2
      _ ⟨[7], ⟨[], []⟩⟩ (.client 4) 9 (by decide)

/-- C10: on a relay, `send_raw` with `next_peeler` equal to our own
fingerprint is exactly `incoming_raw` on the packet: no relay-spider dispatch
happens in the call, and a packet whose hash is already in the replay set is
dropped by the replay check. -/
theorem c10_send_raw_self_peels_locally
    (env : NetEnv) (st : NetState) (pkt : Packet)
    (hrelay : env.isClient = false) :
    send_raw env st pkt env.myFp = incoming_raw env st env.myFp pkt ∧
    (∀ e ∈ (send_raw env st pkt env.myFp).effects, e.isRelaySend = false) ∧
    (blake3 pkt ∈ st.pktsSeen →
      send_raw env st pkt env.myFp = ⟨st, [], some .replay⟩) := by
  have heq : send_raw env st pkt env.myFp = incoming_raw env st env.myFp pkt := by
    unfold send_raw
    rw [hrelay]
    simp
  refine ⟨heq, ?_, ?_⟩
  · rw [heq]
    exact incoming_raw_self_no_relay_send env st pkt
  · intro h
    rw [heq]
    unfold incoming_raw
    rw [if_pos h]

/-- Witness for C10 at a concrete relay context. -/
theorem c10_send_raw_self_peels_locally_witness :
    send_raw ⟨false, 9, fun _ => none, RelayGraph.new, [4], []⟩ ⟨[7]⟩ 7 9 =
      ⟨⟨[7]⟩, [], some .replay⟩ :=
  (c10_send_raw_self_peels_locally
    ⟨false, 9, fun _ => none, RelayGraph.new, [4], []⟩ ⟨[7]⟩ 7 rfl).2.2 (by decide)

/-- C3 counterexample: `start_settlement` and `request_seed` abort (their
bodies are `todo!()`, which panics); neither produces the `None` answer, so
the claim that they "always produce the None answer and never fail or abort"
is false already at the request `0`. -/
theorem c3_counterexample :
    start_settlement 0 = .aborts ∧
    start_settlement 0 ≠ .answer none ∧
    request_seed = RpcOutcome.aborts ∧
    request_seed ≠ RpcOutcome.answer none := by
  refine ⟨rfl, ?_, rfl, ?_⟩ <;> intro h <;> cases h

/-- C3 amended: every call of `start_settlement`, and every call of
`request_seed`, panics (`todo!()`); no answer — `None` or otherwise — is
ever returned. -/
theorem c3_stubs_abort :
    (∀ req : Nat, start_settlement req = .aborts) ∧
    request_seed = RpcOutcome.aborts :=
  ⟨fun _ => rfl, rfl⟩

/-- C7: a node initiates adjacency signing with a remote relay exactly when
it holds a relay identity whose fingerprint is strictly less than the
remote's; in particular a relay with fingerprint ≥ the remote's never sends
a `sign_adjacency` request. -/
theorem c7_left_side_rule (myIdentity : Option Nat) (remoteFp ts : Nat) :
    (∃ d, gossip_sign_adjacency_request myIdentity remoteFp ts = some d) ↔
      ∃ sk, myIdentity = some sk ∧ fingerprintOf sk < remoteFp := by
  cases myIdentity with
  | none => simp [gossip_sign_adjacency_request]
  | some sk =>
      by_cases h : fingerprintOf sk < remoteFp <;>
        simp [gossip_sign_adjacency_request, h]

/-- Witness for C7: fingerprint 1 initiates with remote 2; remote 2 holding
the same identities never initiates with 1. -/
theorem c7_left_side_rule_witness :
    (∃ d, gossip_sign_adjacency_request (some 1) 2 5 = some d) ∧
    ¬ ∃ d, gossip_sign_adjacency_request (some 2) 1 5 = some d := by
  constructor
  · exact (c7_left_side_rule (some 1) 2 5).mpr ⟨1, rfl, by decide⟩
  · intro h
    rcases (c7_left_side_rule (some 2) 1 5).mp h with ⟨sk, hsk, hlt⟩
    cases hsk
    exact absurd hlt (by decide)

/-- C6: the server side of `sign_adjacency` answers with a completed
descriptor only when `left < right`, `right` is our own fingerprint and
`left` is a connected relay neighbor; when the conditions fail it answers
`None` and leaves the graph untouched; any returned descriptor is the
request with our right-hand signature filled in and is exactly what was
inserted into the graph; and every `None` answer leaves the graph
untouched. -/
theorem c6_server_sign_adjacency_guard (env : ServerEnv) (g : RelayGraph)
    (desc : AdjacencyDescriptor) :
    ((server_sign_adjacency env g desc).1.isSome →
      desc.left < desc.right ∧ desc.right = fingerprintOf env.mySk ∧
        desc.left ∈ env.relayNeighbors) ∧
    (¬ (desc.left < desc.right ∧ desc.right = fingerprintOf env.mySk ∧
        desc.left ∈ env.relayNeighbors) →
      server_sign_adjacency env g desc = (none, g)) ∧
    (∀ d, (server_sign_adjacency env g desc).1 = some d →
      d = { desc with rightSig := signMsg env.mySk desc.toSign } ∧
      g.insert_adjacency d = .ok (server_sign_adjacency env g desc).2) ∧
    ((server_sign_adjacency env g desc).1 = none →
      (server_sign_adjacency env g desc).2 = g) := by
  by_cases hv : desc.left < desc.right ∧ desc.right = fingerprintOf env.mySk ∧
      desc.left ∈ env.relayNeighbors
  · have hrw : server_sign_adjacency env g desc =
        (match g.insert_adjacency { desc with rightSig := signMsg env.mySk desc.toSign } with
         | .ok g2 => (some { desc with rightSig := signMsg env.mySk desc.toSign }, g2)
         | .error _ => (none, g)) := by
      simp only [server_sign_adjacency]
      rw [if_pos hv]
    cases hins : g.insert_adjacency { desc with rightSig := signMsg env.mySk desc.toSign } with
    | ok g2 =>
        rw [hins] at hrw
        rw [hrw]
        refine ⟨fun _ => hv, fun hc => absurd hv hc, ?_, ?_⟩
        · intro d hd
          simp only at hd
          cases hd
          exact ⟨rfl, hins⟩
        · intro hnone
          simp at hnone
    | error e =>
        rw [hins] at hrw
        rw [hrw]
        refine ⟨?_, fun hc => absurd hv hc, ?_, fun _ => rfl⟩
        · intro hs
          simp at hs
        · intro d hd
          simp at hd
  · have hrw : server_sign_adjacency env g desc = (none, g) := by
      simp only [server_sign_adjacency]
      rw [if_neg hv]
    rw [hrw]
    refine ⟨?_, fun _ => rfl, ?_, fun _ => rfl⟩
    · intro hs
      simp at hs
    · intro d hd
      simp at hd

/-- Witness for C6: a descriptor whose right side is not our fingerprint is
refused with the graph unchanged. -/
theorem c6_server_sign_adjacency_guard_witness :
    server_sign_adjacency ⟨5, [1]⟩ RelayGraph.new ⟨1, 4, 0, 0, 0⟩ =
      (none, RelayGraph.new) :=
  (c6_server_sign_adjacency_guard ⟨5, [1]⟩ RelayGraph.new ⟨1, 4, 0, 0, 0⟩).2.1
    (by decide)

/-- The list encoding round-trips. -/
theorem decodeList_encodeList (l : List Nat) : decodeList (encodeList l) = l := by
  induction l with
  | nil => simp [encodeList, decodeList]
  | cons x xs ih =>
      rw [encodeList, decodeList, Nat.unpair_pair]
      exact congrArg (x :: ·) ih

/-- The identity-descriptor encoding round-trips. -/
theorem decodeId_encodeId (i : IdentityDescriptor) : decodeId (encodeId i) = i := by
  simp [encodeId, decodeId, Nat.unpair_pair]

/-- The adjacency-descriptor encoding round-trips. -/
theorem decodeAdj_encodeAdj (a : AdjacencyDescriptor) : decodeAdj (encodeAdj a) = a := by
  simp [encodeAdj, decodeAdj, Nat.unpair_pair]

/-- The identity-table encoding round-trips entrywise. -/
theorem map_encId_decId (ids : List (Nat × IdentityDescriptor)) :
    (ids.map (fun p => Nat.pair p.1 (encodeId p.2))).map
      (fun m => ((Nat.unpair m).1, decodeId (Nat.unpair m).2)) = ids := by
  induction ids with
  | nil => rfl
  | cons p ps ih => simp [Nat.unpair_pair, decodeId_encodeId, ih]

/-- The adjacency-set encoding round-trips entrywise. -/
theorem map_encAdj_decAdj (l : List AdjacencyDescriptor) :
    (l.map encodeAdj).map decodeAdj = l := by
  induction l with
  | nil => rfl
  | cons a t ih => simp [decodeAdj_encodeAdj, ih]

/-- The modelled `stdcode` graph serialization round-trips, so any loss in
the snapshot path is due to the keys, not the encoding. -/
theorem stdcodeGraph_roundtrip (g : RelayGraph) :
    stdcodeGraphDecode (stdcodeGraph g) = some g := by
  cases g with
  | mk ids adjs =>
      unfold stdcodeGraph stdcodeGraphDecode
      rw [Nat.unpair_pair]
      simp only [decodeList_encodeList]
      rw [map_encId_decId, map_encAdj_decAdj]

/-- C2: the periodic snapshot writes the serialized relay graph to the misc
table under the key "relay_graph" (underscore), while the restart path of
`LinkNode::new` reads "relay-graph" (hyphen); the keys disagree, so a node
restarted against a store holding exactly one snapshot loads the empty
`RelayGraph::new()` instead of the saved graph — the snapshot does not
round-trip, although the serialization itself does. -/
theorem c2_snapshot_key_mismatch :
    load_relay_graph (save_relay_graph_step ⟨[]⟩ ⟨[(3, ⟨3, 4, 5⟩)], []⟩) =
      RelayGraph.new ∧
    RelayGraph.new ≠ (⟨[(3, ⟨3, 4, 5⟩)], []⟩ : RelayGraph) ∧
    (save_relay_graph_step ⟨[]⟩ ⟨[(3, ⟨3, 4, 5⟩)], []⟩).get_misc "relay-graph" =
      none ∧
    (save_relay_graph_step ⟨[]⟩ ⟨[(3, ⟨3, 4, 5⟩)], []⟩).get_misc "relay_graph" =
      some (stdcodeGraph ⟨[(3, ⟨3, 4, 5⟩)], []⟩) ∧
    stdcodeGraphDecode (stdcodeGraph ⟨[(3, ⟨3, 4, 5⟩)], []⟩) =
      some (⟨[(3, ⟨3, 4, 5⟩)], []⟩ : RelayGraph) := by
  refine ⟨rfl, by decide, rfl, rfl, stdcodeGraph_roundtrip _⟩

/-- C4 counterexample: at a relay with fingerprint 8 and no connected
clients, a fresh packet that peels to `GarbledReply { rb_id = 5, pkt = 77,
client_id = 0 }` is not delivered locally as a `Backward` message: the
engine attempts the client-spider send keyed by `client_id = 0`, emits no
effect at all, and bails with an error; and with a "client 0" connected the
body is sent into the client spider rather than delivered locally. -/
theorem c4_counterexample :
    incoming_raw ⟨false, 8, fun _ => some (.garbledReply 5 77 0), RelayGraph.new, [], []⟩
        ⟨[]⟩ 8 3 =
      ⟨⟨[3]⟩, [], some .clientSendFailed⟩ ∧
    incoming_raw ⟨false, 8, fun _ => some (.garbledReply 5 77 0), RelayGraph.new, [], [0]⟩
        ⟨[]⟩ 8 3 =
      ⟨⟨[3]⟩, [NetEffect.clientSend 0 77 5], none⟩ := by
  constructor <;> rfl

/-- C4 amended: a peeled `GarbledReply { rb_id, pkt, client_id }` is always
pushed toward the client identified by `client_id`, with no special local
delivery for `client_id == 0`: `incoming_raw` sends `(pkt, rb_id)` into the
client spider and bails with an error when that client has no subscriber,
while the `peel_forward` engine looks `client_id` up in the client table,
sends `(pkt, rb_id)` when present, and otherwise drops the packet with a
warning and returns success. -/
theorem c4_garbled_reply_always_to_client
    (env : NetEnv) (st : NetState) (pkt : Packet) (rbId body cid : Nat)
    (hnew : blake3 pkt ∉ st.pktsSeen)
    (hpeel : env.peel pkt = some (.garbledReply rbId body cid)) :
    (incoming_raw env st env.myFp pkt =
      if cid ∈ env.clientNeighbors then
        ⟨⟨blake3 pkt :: st.pktsSeen⟩, [.clientSend cid body rbId], none⟩
      else ⟨⟨blake3 pkt :: st.pktsSeen⟩, [], some .clientSendFailed⟩) ∧
    ∀ (penv : PFEnv) (pst : PFState), penv.peel pkt = some (.garbledReply rbId body cid) →
      peelPhase penv pst penv.myFp pkt =
        if cid ∈ penv.clientTable then ⟨pst, [.clientSend cid body rbId], none⟩
        else ⟨pst, [], none⟩ := by
  constructor
  · unfold incoming_raw
    rw [if_neg hnew]
    simp only
    rw [if_pos trivial, hpeel]
  · intro penv pst hpeel2
    unfold peelPhase
    rw [if_pos rfl, hpeel2]

/-- Witness for C4 amended, at the counterexample context. -/
theorem c4_garbled_reply_always_to_client_witness :
    incoming_raw ⟨false, 8, fun _ => some (.garbledReply 5 77 0), RelayGraph.new, [], []⟩
        ⟨[]⟩ 8 3 =
      ⟨⟨[3]⟩, [], some .clientSendFailed⟩ := by
  have h := (c4_garbled_reply_always_to_client
    ⟨false, 8, fun _ => some (.garbledReply 5 77 0), RelayGraph.new, [], []⟩
    ⟨[]⟩ 3 5 77 0 (by decide) rfl).1
  simpa using h

/-- The first components of the consecutive-pair windows are exactly the
non-terminal route nodes. -/
theorem windows2_map_fst (l : List Nat) : (windows2 l).map Prod.fst = l.dropLast := by
  induction l with
  | nil => rfl
  | cons a t ih =>
      cases t with
      | nil => rfl
      | cons b r =>
          rw [windows2]
          simp only [List.map_cons]
          rw [ih]
          rfl

/-- There is one window per consecutive pair. -/
theorem windows2_length (l : List Nat) : (windows2 l).length = l.length - 1 := by
  induction l with
  | nil => rfl
  | cons a t ih =>
      cases t with
      | nil => rfl
      | cons b r =>
          rw [windows2]
          simp only [List.length_cons]
          rw [ih]
          simp

/-- The `i`-th window is the `i`-th and `(i+1)`-th route nodes. -/
theorem windows2_get? (l : List Nat) :
    ∀ i a b, l.get? i = some a → l.get? (i + 1) = some b →
      (windows2 l).get? i = some (a, b) := by
  induction l with
  | nil => intro i a b h _; simp at h
  | cons x t ih =>
      intro i a b ha hb
      cases t with
      | nil =>
          cases i with
          | zero => simp at hb
          | succ j => simp at ha
      | cons y r =>
          rw [windows2]
          cases i with
          | zero =>
              simp only [List.get?] at ha hb
              cases ha
              cases hb
              rfl
          | succ j =>
              simp only [List.get?] at ha hb ⊢
              exact ih j a b ha hb

/-- When every window's first node has an identity, `collectInstrs` succeeds
and produces the instruction list windowwise. -/
theorem collectInstrs_ok (g : RelayGraph) :
    ∀ ws : List (Nat × Nat), (∀ p ∈ ws, (g.identity p.1).isSome) →
      ∃ instrs, collectInstrs g ws = .ok instrs ∧ instrs.length = ws.length ∧
        ∀ i p, ws.get? i = some p →
          ∃ idd, g.identity p.1 = some idd ∧
            instrs.get? i = some ⟨idd.onionPk, p.2⟩ := by
  intro ws
  induction ws with
  | nil =>
      intro _
      exact ⟨[], rfl, rfl, by intro i p hp; simp at hp⟩
  | cons w rest ih =>
      intro hall
      obtain ⟨idd, hidd⟩ := Option.isSome_iff_exists.mp (hall w (by simp))
      obtain ⟨instrs, hok, hlen, helem⟩ := ih (fun p hp => hall p (by simp [hp]))
      refine ⟨⟨idd.onionPk, w.2⟩ :: instrs, ?_, by simp [hlen], ?_⟩
      · cases w with
        | mk a b =>
            rw [collectInstrs, hidd, hok]
      · intro i p hp
        cases i with
        | zero =>
            simp only [List.get?] at hp
            cases hp
            exact ⟨idd, hidd, rfl⟩
        | succ j =>
            simp only [List.get?] at hp ⊢
            exact helem j p hp

/-- When some window's first node has no identity, `collectInstrs` fails
with a `NoOnionPublic` error naming a node without an identity. -/
theorem collectInstrs_err (g : RelayGraph) :
    ∀ ws : List (Nat × Nat), (∃ p ∈ ws, g.identity p.1 = none) →
      ∃ fp, g.identity fp = none ∧
        collectInstrs g ws = .error (.noOnionPublic fp) := by
  intro ws
  induction ws with
  | nil =>
      intro h
      simp at h
  | cons w rest ih =>
      intro h
      cases hw : g.identity w.1 with
      | none =>
          refine ⟨w.1, hw, ?_⟩
          cases w with
          | mk a b => rw [collectInstrs, hw]
      | some idd =>
          have hrest : ∃ p ∈ rest, g.identity p.1 = none := by
            rcases h with ⟨p, hp, hnone⟩
            rcases List.mem_cons.mp hp with h1 | h2
            · subst h1
              rw [hw] at hnone
              cases hnone
            · exact ⟨p, h2, hnone⟩
          obtain ⟨fp, hfp, herr⟩ := ih hrest
          refine ⟨fp, hfp, ?_⟩
          cases w with
          | mk a b => rw [collectInstrs, hw, herr]

/-- C8: on a route whose non-terminal nodes all have identities in the
graph, `route_to_instructs` returns one `ForwardInstruction` per consecutive
pair, the `i`-th carrying the onion public key of the `i`-th route node and
the `(i+1)`-th route node as next fingerprint; when a non-terminal node's
identity is missing it returns a `NoOnionPublic` error. -/
theorem c8_route_to_instructs (g : RelayGraph) (route : List Nat) :
    ((∀ fp ∈ route.dropLast, (g.identity fp).isSome) →
      ∃ instrs, route_to_instructs g route = .ok instrs ∧
        instrs.length = route.length - 1 ∧
        ∀ i a b, route.get? i = some a → route.get? (i + 1) = some b →
          ∃ idd, g.identity a = some idd ∧
            instrs.get? i = some ⟨idd.onionPk, b⟩) ∧
    ((∃ fp ∈ route.dropLast, g.identity fp = none) →
      ∃ fp, g.identity fp = none ∧
        route_to_instructs g route = .error (.noOnionPublic fp)) := by
  constructor
  · intro hall
    have hall2 : ∀ p ∈ windows2 route, (g.identity p.1).isSome := by
      intro p hp
      apply hall
      rw [← windows2_map_fst]
      exact List.mem_map_of_mem Prod.fst hp
    obtain ⟨instrs, hok, hlen, helem⟩ := collectInstrs_ok g (windows2 route) hall2
    refine ⟨instrs, hok, by rw [hlen, windows2_length], ?_⟩
    intro i a b ha hb
    exact helem i (a, b) (windows2_get? route i a b ha hb)
  · intro hmiss
    apply collectInstrs_err
    rcases hmiss with ⟨fp, hfp, hnone⟩
    rw [← windows2_map_fst] at hfp
    rcases List.mem_map.mp hfp with ⟨p, hp, hfst⟩
    exact ⟨p, hp, hfst ▸ hnone⟩

/-- Witness for C8: the route `[1, 2, 3]` with identities for 1 and 2 in the
graph yields the two expected forward instructions. -/
theorem c8_route_to_instructs_witness :
    route_to_instructs ⟨[(1, ⟨1, 11, 0⟩), (2, ⟨2, 22, 0⟩)], []⟩ [1, 2, 3] =
      .ok [⟨11, 2⟩, ⟨22, 3⟩] := by
  obtain ⟨instrs, hok, hlen, helem⟩ :=
    (c8_route_to_instructs ⟨[(1, ⟨1, 11, 0⟩), (2, ⟨2, 22, 0⟩)], []⟩ [1, 2, 3]).1
      (by decide)
  obtain ⟨idd0, hid0, h0⟩ := helem 0 1 2 rfl rfl
  obtain ⟨idd1, hid1, h1⟩ := helem 1 2 3 rfl rfl
  cases instrs with
  | nil => simp at h0
  | cons x t =>
      cases t with
      | nil => simp at h1
      | cons y r =>
          cases r with
          | nil =>
              simp only [List.get?] at h0 h1
              cases h0
              cases h1
              cases hid0
              cases hid1
              exact hok
          | cons z q => simp at hlen

/-- The `one_hop_closer` loop step yields no candidate exactly when it had
none and the scanned neighbor has no route. -/
theorem ohcStep_eq_none (g : RelayGraph) (dest : Nat) (acc : Option (Nat × Nat))
    (n : Nat) :
    ohcStep g dest acc n = none ↔
      acc = none ∧ g.find_shortest_path n dest = none := by
  cases hr : g.find_shortest_path n dest with
  | none => simp [ohcStep, hr]
  | some r =>
      cases acc with
      | none => simp [ohcStep, hr]
      | some p =>
          cases p with
          | mk bl bh =>
              simp only [ohcStep, hr]
              constructor
              · intro h
                split at h <;> cases h
              · rintro ⟨h, -⟩
                cases h

/-- What a `some` result of the loop step tells us: it is the old candidate
or the scanned neighbor; its length bounds any route of the scanned
neighbor; and it never exceeds the old candidate's length. -/
theorem ohcStep_some (g : RelayGraph) (dest : Nat) (acc : Option (Nat × Nat))
    (n bl bh : Nat) (h : ohcStep g dest acc n = some (bl, bh)) :
    (acc = some (bl, bh) ∨
      (bh = n ∧ ∃ r, g.find_shortest_path n dest = some r ∧ r.length = bl)) ∧
    (∀ r, g.find_shortest_path n dest = some r → bl ≤ r.length) ∧
    (∀ al ah, acc = some (al, ah) → bl ≤ al) := by
  unfold ohcStep at h
  cases hr : g.find_shortest_path n dest with
  | none =>
      rw [hr] at h
      have h2 : acc = some (bl, bh) := h
      refine ⟨Or.inl h2, ?_, ?_⟩
      · intro r hr2
        cases hr2
      · intro al ah hacc
        rw [hacc] at h2
        cases h2
        exact le_refl _
  | some r =>
      rw [hr] at h
      cases acc with
      | none =>
          have h2 : some (r.length, n) = some (bl, bh) := h
          cases h2
          refine ⟨Or.inr ⟨rfl, r, rfl, rfl⟩, ?_, ?_⟩
          · intro r2 hr2
            cases hr2
            exact le_refl _
          · intro al ah hacc
            cases hacc
      | some p =>
          cases p with
          | mk al ah =>
              have h2 : (if r.length < al then some (r.length, n) else some (al, ah)) =
                  some (bl, bh) := h
              by_cases hlt : r.length < al
              · rw [if_pos hlt] at h2
                cases h2
                refine ⟨Or.inr ⟨rfl, r, rfl, rfl⟩, ?_, ?_⟩
                · intro r2 hr2
                  cases hr2
                  exact le_refl _
                · intro al2 ah2 hacc
                  cases hacc
                  exact le_of_lt hlt
              · rw [if_neg hlt] at h2
                cases h2
                refine ⟨Or.inl rfl, ?_, ?_⟩
                · intro r2 hr2
                  cases hr2
                  exact le_of_not_lt hlt
                · intro al2 ah2 hacc
                  cases hacc
                  exact le_refl _

/-- The `one_hop_closer` fold yields no candidate exactly when it started
with none and no scanned neighbor has a route. -/
theorem ohcFold_eq_none (g : RelayGraph) (dest : Nat) :
    ∀ (ns : List Nat) (acc : Option (Nat × Nat)),
      ns.foldl (ohcStep g dest) acc = none ↔
        acc = none ∧ ∀ n ∈ ns, g.find_shortest_path n dest = none := by
  intro ns
  induction ns with
  | nil =>
      intro acc
      simp
  | cons n rest ih =>
      intro acc
      rw [List.foldl_cons, ih, ohcStep_eq_none]
      constructor
      · rintro ⟨⟨hacc, hn⟩, hrest⟩
        refine ⟨hacc, ?_⟩
        intro m hm
        rcases List.mem_cons.mp hm with h1 | h2
        · exact h1 ▸ hn
        · exact hrest m h2
      · rintro ⟨hacc, hall⟩
        exact ⟨⟨hacc, hall n (by simp)⟩, fun m hm => hall m (by simp [hm])⟩

/-- What a `some` result of the `one_hop_closer` fold tells us: the winner is
the starting candidate or a scanned neighbor whose route has the winning
length; the winning length bounds every scanned neighbor's route length; and
it never exceeds the starting candidate's length. -/
theorem ohcFold_some (g : RelayGraph) (dest : Nat) :
    ∀ (ns : List Nat) (acc : Option (Nat × Nat)) (bl bh : Nat),
      ns.foldl (ohcStep g dest) acc = some (bl, bh) →
      ((acc = some (bl, bh) ∨
         (bh ∈ ns ∧ ∃ r, g.find_shortest_path bh dest = some r ∧ r.length = bl)) ∧
       (∀ n ∈ ns, ∀ r, g.find_shortest_path n dest = some r → bl ≤ r.length) ∧
       (∀ al ah, acc = some (al, ah) → bl ≤ al)) := by
  intro ns
  induction ns with
  | nil =>
      intro acc bl bh h
      simp only [List.foldl_nil] at h
      refine ⟨Or.inl h, ?_, ?_⟩
      · intro n hn
        simp at hn
      · intro al ah hacc
        rw [hacc] at h
        cases h
        exact le_refl _
  | cons n rest ih =>
      intro acc bl bh h
      rw [List.foldl_cons] at h
      obtain ⟨hleft, hmin, haccb⟩ := ih (ohcStep g dest acc n) bl bh h
      cases hstep : ohcStep g dest acc n with
      | none =>
          obtain ⟨hacc0, hn0⟩ := (ohcStep_eq_none g dest acc n).mp hstep
          refine ⟨?_, ?_, ?_⟩
          · rcases hleft with hacc | ⟨hmem, hr⟩
            · rw [hstep] at hacc
              cases hacc
            · exact Or.inr ⟨List.mem_cons_of_mem n hmem, hr⟩
          · intro m hm r hr
            rcases List.mem_cons.mp hm with h1 | h2
            · rw [h1] at hr
              rw [hn0] at hr
              cases hr
            · exact hmin m h2 r hr
          · intro al ah hacc
            rw [hacc0] at hacc
            cases hacc
      | some p =>
          cases p with
          | mk al1 ah1 =>
              obtain ⟨hsleft, hsmin, hsaccb⟩ := ohcStep_some g dest acc n al1 ah1 hstep
              have hblal1 : bl ≤ al1 := haccb al1 ah1 hstep
              refine ⟨?_, ?_, ?_⟩
              · rcases hleft with hacc | ⟨hmem, hr⟩
                · rw [hstep] at hacc
                  cases hacc
                  rcases hsleft with hacc2 | ⟨hbh, hr2⟩
                  · exact Or.inl hacc2
                  · subst hbh
                    exact Or.inr ⟨List.mem_cons_self _ _, hr2⟩
                · exact Or.inr ⟨List.mem_cons_of_mem n hmem, hr⟩
              · intro m hm r hr
                rcases List.mem_cons.mp hm with h1 | h2
                · exact le_trans hblal1 (hsmin r (h1 ▸ hr))
                · exact hmin m h2 r hr
              · intro al ah hacc
                exact le_trans hblal1 (hsaccb al ah hacc)

/-- C5 counterexample: with the relay graph `{0—1, 0—2}`, destination 0 and
connected neighbors iterated in the order `[2, 1]`, both neighbors have
shortest routes of equal length to 0, yet `one_hop_closer` returns neighbor
2 — not the lexicographically smallest tied neighbor 1 — so ties are not
broken by fingerprint order. -/
theorem c5_counterexample :
    one_hop_closer
        ⟨false, 99, fun _ => none, ⟨[], [⟨0, 1, 0, 0, 0⟩, ⟨0, 2, 0, 0, 0⟩]⟩, [2, 1], []⟩
        0 = some 2 ∧
    (1 : Nat) ∈
      NetEnv.relayNeighbors
        ⟨false, 99, fun _ => none, ⟨[], [⟨0, 1, 0, 0, 0⟩, ⟨0, 2, 0, 0, 0⟩]⟩, [2, 1], []⟩ ∧
    (1 : Nat) < 2 ∧
    RelayGraph.find_shortest_path ⟨[], [⟨0, 1, 0, 0, 0⟩, ⟨0, 2, 0, 0, 0⟩]⟩ 1 0 =
      some [1, 0] ∧
    RelayGraph.find_shortest_path ⟨[], [⟨0, 1, 0, 0, 0⟩, ⟨0, 2, 0, 0, 0⟩]⟩ 2 0 =
      some [2, 0] := by
  decide

/-- C5 amended: `one_hop_closer(d)` fails exactly when no connected relay
neighbor has a route to `d`, and any returned neighbor is a connected
neighbor whose shortest-path length to `d` is minimal over all connected
neighbors (with ties resolved by the neighbor table's iteration order, not
by fingerprint order). -/
theorem c5_one_hop_closer_minimal (env : NetEnv) (dest : Nat) :
    (one_hop_closer env dest = none ↔
      ∀ n ∈ env.relayNeighbors, env.graph.find_shortest_path n dest = none) ∧
    (∀ nh, one_hop_closer env dest = some nh →
      nh ∈ env.relayNeighbors ∧
      ∃ r, env.graph.find_shortest_path nh dest = some r ∧
        ∀ m ∈ env.relayNeighbors, ∀ s,
          env.graph.find_shortest_path m dest = some s → r.length ≤ s.length) := by
  constructor
  · constructor
    · intro h
      cases hf : env.relayNeighbors.foldl (ohcStep env.graph dest) none with
      | none => exact ((ohcFold_eq_none env.graph dest env.relayNeighbors none).mp hf).2
      | some p =>
          unfold one_hop_closer at h
          rw [hf] at h
          cases h
    · intro hall
      unfold one_hop_closer
      rw [(ohcFold_eq_none env.graph dest env.relayNeighbors none).mpr ⟨rfl, hall⟩]
      rfl
  · intro nh h
    unfold one_hop_closer at h
    cases hf : env.relayNeighbors.foldl (ohcStep env.graph dest) none with
    | none =>
        rw [hf] at h
        cases h
    | some p =>
        cases p with
        | mk bl bh =>
            rw [hf] at h
            cases h
            obtain ⟨hleft, hmin, _⟩ :=
              ohcFold_some env.graph dest env.relayNeighbors none bl bh hf
            rcases hleft with hacc | ⟨hmem, r, hr, hlen⟩
            · cases hacc
            · exact ⟨hmem, r, hr, fun m hm s hs => hlen ▸ hmin m hm s hs⟩

/-- Witness for C5 amended at the counterexample context: neighbor 2 is
returned, is connected, and its route length 2 is minimal. -/
theorem c5_one_hop_closer_minimal_witness :
    (2 : Nat) ∈
      NetEnv.relayNeighbors
        ⟨false, 99, fun _ => none, ⟨[], [⟨0, 1, 0, 0, 0⟩, ⟨0, 2, 0, 0, 0⟩]⟩, [2, 1], []⟩ ∧
    ∃ r, RelayGraph.find_shortest_path ⟨[], [⟨0, 1, 0, 0, 0⟩, ⟨0, 2, 0, 0, 0⟩]⟩ 2 0 =
        some r ∧
      ∀ m ∈ NetEnv.relayNeighbors
          ⟨false, 99, fun _ => none, ⟨[], [⟨0, 1, 0, 0, 0⟩, ⟨0, 2, 0, 0, 0⟩]⟩, [2, 1], []⟩,
        ∀ s, RelayGraph.find_shortest_path ⟨[], [⟨0, 1, 0, 0, 0⟩, ⟨0, 2, 0, 0, 0⟩]⟩ m 0 =
            some s → r.length ≤ s.length :=
  (c5_one_hop_closer_minimal
    ⟨false, 99, fun _ => none, ⟨[], [⟨0, 1, 0, 0, 0⟩, ⟨0, 2, 0, 0, 0⟩]⟩, [2, 1], []⟩
    0).2 2 (by decide)

end Earendil
